import Mathlib

/-!
A shallow embedding of `chadtree/view/render.py` (the tree-render core of the
repository) together with proofs about its behaviour.

The render module's collaborator types (`Node`, `Mode`, `Index`, `Selection`,
`FilterPattern`, `QuickFix`, `VCStatus`, `Settings`, `Badge`, `Highlight`,
`Render`, `Derived`, `Sortby`) are declared in modules that are not part of
the sources at hand (`fs/types.py`, `state/types.py`, `settings/types.py`,
`version_ctl/types.py`, `view/types.py`); they are modelled from the spec's
data-model section, constrained by how `render.py` uses them.

Python conventions used throughout the embedding:
- a Python `Mapping` is embedded as an association list, `dict.get` as
  `List.lookup` (keys of a Python dict are unique, so first match = the match);
- a Python `set` of strings is embedded as a `List String` with membership;
- a raised exception (`KeyError`, `UnicodeEncodeError`) is embedded as `none`
  in an `Option` result;
- `sorted(xs, key=f)` (a stable sort) is embedded as `List.mergeSort` with the
  boolean comparison `f a ≤ f b`.
-/

namespace Chadtree

/-! ### Python string and container helpers -/

/-- `os.linesep` on the POSIX platforms the plugin runs on. -/
def linesep : String := "\n"

/-- `os.path.sep` on POSIX. -/
def sep : String := "/"

/-- Python truthiness of `a or b` for strings: `a` if non-empty, else `b`. -/
def strOr (a b : String) : String := if a == "" then b else a

/-- One pass of Python `str.replace`: if the pattern is a prefix here,
substitute and continue after it, else keep one character; the fuel is the
string length (the recursion consumes at least one character per step, so
the fuel never runs out for a non-empty pattern). -/
def replaceFuel (pat repl : List Char) : Nat → List Char → List Char
  | _, [] => []
  | 0, cs => cs
  | fuel + 1, c :: cs =>
    if pat.isPrefixOf (c :: cs) then
      repl ++ replaceFuel pat repl fuel (List.drop (pat.length - 1) cs)
    else c :: replaceFuel pat repl fuel cs

/-- Python `s.replace(pat, repl)` for a non-empty pattern: left-to-right,
non-overlapping replacement of every occurrence (which is also what Lean's
`String.replace` computes; this embedding is structurally recursive so that
it evaluates inside the kernel). -/
def pyReplace (s pat repl : String) : String :=
  if pat.isEmpty then s else ⟨replaceFuel pat.data repl.data s.data.length s.data⟩

/-- UTF-8 byte length of a string: the embedding of `len(s.encode())` for a
string all of whose code points are valid scalar values (which is every Lean
string).  Equal to the sum of the UTF-8 sizes of the characters. -/
def byteLen (s : String) : Nat := (s.data.map Char.utf8Size).sum

/-- Glob matching as used by Python's `fnmatch.fnmatch` on POSIX (where
`os.path.normcase` is the identity): `*` matches any run of characters, `?`
matches exactly one character, any other character matches itself.  Character
classes (`[...]`) are not modelled; every claim treats pattern matching only
through this predicate. -/
def globMatch : List Char → List Char → Bool
  | [], cs => cs.isEmpty
  | '*' :: ps, cs => (List.range (cs.length + 1)).any (fun k => globMatch ps (cs.drop k))
  | '?' :: ps, cs =>
    match cs with
    | [] => false
    | _ :: cs => globMatch ps cs
  | p :: ps, cs =>
    match cs with
    | [] => false
    | c :: cs => p == c && globMatch ps cs

/-- `fnmatch.fnmatch(name, pattern)`. -/
def fnmatch (name pattern : String) : Bool := globMatch pattern.data name.data

/-- Sequence a list of optional values; `none` anywhere (an exception raised
while a generator is being exhausted) makes the whole result `none`. -/
def seqOpt {α : Type} : List (Option α) → Option (List α)
  | [] => some []
  | none :: _ => none
  | some a :: rest => (seqOpt rest).map (a :: ·)

/-- Lookup in a Python dict that was built by inserting the given key/value
pairs left to right: the *last* write for a key wins. -/
def dictGet (entries : List (String × Nat)) (k : String) : Option Nat :=
  entries.reverse.lookup k

/-! ### Data model (`Modelled from the spec`, see the module docstring) -/

/-- Modelled from the spec: a highlight group (`pynvim_pp.highlight.HLgroup`,
not part of the sources at hand); only its name is observable here.  An
`HLgroup` instance is always truthy in Python. -/
structure HLgroup where
  name : String
deriving DecidableEq, Repr

/-- Modelled from the spec: the mode tags of `fs/types.py` used by the render
module, "a set of tags drawn from \x7bfolder, link, orphan_link, ...\x7d".
`val` is the underlying `IntEnum` value, which fixes the iteration order of
`sorted(node.mode)`; the claims depend only on this order being fixed, not on
the particular numbering. -/
inductive Mode where
  | folder
  | link
  | orphan_link
deriving DecidableEq, Repr

/-- The `IntEnum` value of a mode tag (fixes the `sorted` order). -/
def Mode.val : Mode → Nat
  | .folder => 0
  | .link => 1
  | .orphan_link => 2

/-- Modelled from the spec: a filesystem entry of `fs/types.py`.  `mode` is a
set of tags, embedded as a list; `children` is an optional mapping from child
path to child node of which `render.py` only ever consumes the values
(`(node.children or {}).values()`), so it is embedded directly as the list of
values in mapping order, with Python's `None`-or-empty collapsed to `[]`. -/
inductive Node where
  | mk (path : String) (name : String) (ext : Option String) (mode : List Mode)
      (children : List Node)
deriving Repr

/-- The `path` attribute (absolute path, unique key). -/
def Node.path : Node → String
  | .mk p _ _ _ _ => p

/-- The `name` attribute (basename). -/
def Node.name : Node → String
  | .mk _ nm _ _ _ => nm

/-- The `ext` attribute (extension, or `None`). -/
def Node.ext : Node → Option String
  | .mk _ _ e _ _ => e

/-- The `mode` attribute (set of mode tags). -/
def Node.mode : Node → List Mode
  | .mk _ _ _ m _ => m

/-- The `children` attribute (see `Node`). -/
def Node.children : Node → List Node
  | .mk _ _ _ _ cs => cs

/-- Modelled from the spec: `state/types.py`'s `FilterPattern`, "an optional
single glob pattern"; the optionality lives at the use site
(`Optional[FilterPattern]`).  A `FilterPattern` instance is always truthy. -/
structure FilterPattern where
  pattern : String
deriving DecidableEq, Repr

/-- Modelled from the spec: a Python mapping from path to count, as consumed
by subscripting (`m[path]`).  `entries` are the stored key/value pairs;
`default` is `some d` for a defaulting mapping (such as the `Counter` the
spec's "mapping from path to a count" is built from, where `d = 0`) and
`none` for a plain mapping, whose subscript raises `KeyError` on a missing
key. -/
structure PyIntMapping where
  entries : List (String × Nat)
  default : Option Nat
deriving DecidableEq, Repr

/-- The embedding of `m[k]`: `none` models a raised `KeyError`. -/
def PyIntMapping.subscript (m : PyIntMapping) (k : String) : Option Nat :=
  match m.entries.lookup k with
  | some v => some v
  | none => m.default

/-- Modelled from the spec: `state/types.py`'s `QuickFix`, "a mapping from
path to a count of tool-reported locations". -/
structure QuickFix where
  locations : PyIntMapping
deriving DecidableEq, Repr

/-- Modelled from the spec: `version_ctl/types.py`'s `VCStatus`, "a set of
ignored paths and a mapping from path to a short status code". -/
structure VCStatus where
  ignored : List String
  status : List (String × String)
deriving DecidableEq, Repr

/-- Modelled from the spec: `view/types.py`'s `Sortby` enumeration of sort
keys (named as `render.py` consumes them: `Sortby.is_folder`, `Sortby.ext`,
`Sortby.fname`). -/
inductive Sortby where
  | is_folder
  | ext
  | fname
deriving DecidableEq, Repr

/-- Modelled from the spec: the status-marker glyphs of the icon table. -/
structure StatusIcons where
  selected : String
  active : String
deriving DecidableEq, Repr

/-- Modelled from the spec: the folder glyphs (source field names are
`open`/`closed`; `open` is a Lean keyword, hence `opened`). -/
structure FolderIcons where
  opened : String
  closed : String
deriving DecidableEq, Repr

/-- Modelled from the spec: the link glyphs. -/
structure LinkIcons where
  normal : String
  broken : String
deriving DecidableEq, Repr

/-- Modelled from the spec: the icon tables of `settings.view.icons`. -/
structure Icons where
  folder : FolderIcons
  link : LinkIcons
  status : StatusIcons
  name_exact : List (String × String)
  type : List (String × String)
  name_glob : List (String × String)
  default_icon : String
deriving DecidableEq, Repr

/-- Modelled from the spec: the badge highlight groups of
`settings.view.highlights.groups`. -/
structure HlGroups where
  quickfix : HLgroup
  version_control : HLgroup
deriving DecidableEq, Repr

/-- Modelled from the spec: `settings.view.highlights` (per-extension groups
and the badge group names). -/
structure UserHighlights where
  groups : HlGroups
  exts : List (String × HLgroup)
deriving DecidableEq, Repr

/-- Modelled from the spec: `settings.view.hl_context`, the four lookup tiers
of the highlight resolver.  `mode_lookup_post` is keyed by `Optional[Mode]`
(its `None` entry is the final fallback). -/
structure HlContext where
  mode_lookup_pre : List (Mode × HLgroup)
  mode_lookup_post : List (Option Mode × HLgroup)
  ext_lookup : List (String × HLgroup)
  name_lookup : List (String × HLgroup)
deriving DecidableEq, Repr

/-- Modelled from the spec: `settings.view`. -/
structure ViewOptions where
  hl_context : HlContext
  highlights : UserHighlights
  icons : Icons
  sort_by : List Sortby
  use_icons : Bool
deriving DecidableEq, Repr

/-- Modelled from the spec: `settings.ignores`, the configured ignore
patterns by name and by path. -/
structure Ignores where
  name : List String
  path : List String
deriving DecidableEq, Repr

/-- Modelled from the spec: the slice of `settings/types.py`'s `Settings`
consumed by `render.py`. -/
structure Settings where
  view : ViewOptions
  ignores : Ignores
deriving DecidableEq, Repr

/-- Modelled from the spec: `view/types.py`'s `Badge`. -/
structure Badge where
  text : String
  group : HLgroup
deriving DecidableEq, Repr

/-- Modelled from the spec: `view/types.py`'s `Highlight`, a byte-offset span
(source field names are `begin`/`end`; `end` is a Lean keyword, hence the
underscores). -/
structure Highlight where
  group : String
  begin_ : Nat
  end_ : Nat
deriving DecidableEq, Repr

/-- Modelled from the spec: `view/types.py`'s `Render`, the per-line display
payload. -/
structure Render where
  line : String
  badges : List Badge
  highlights : List Highlight
deriving DecidableEq, Repr

/-- Modelled from the spec: `view/types.py`'s `Derived`, the full output of
one render pass.  `paths_lookup` is the dict
`{node.path: idx for idx, node in enumerate(lookup)}`, embedded as its
insertion-ordered pairs and read through `dictGet` (last write wins). -/
structure Derived where
  lookup : List Node
  paths_lookup : List (String × Nat)
  rendered : List Render
deriving Repr

/-! ### `render.py` lines 19-21: the `_CompVals` `IntEnum` -/

/-- `_CompVals.FOLDER = auto() = 1`. -/
def CompVals_FOLDER : Nat := 1

/-- `_CompVals.FILE = auto() = 2`. -/
def CompVals_FILE : Nat := 2

/-! ### `render.py` lines 24-39: `_gen_comp`

Each sort key projects a node to one comparable value; Python compares the
resulting tuples lexicographically.  Values produced for the same position of
the `sortby` list always have the same kind (`_CompVals` for `is_folder`, a
1-tuple of a collated string for `ext`, a collated string for `fname`); a
cross-kind comparison would raise `TypeError` in Python and never happens.
The embedding makes each value a lexicographic triple
`(kind tag, enum value, collated string)` so that the order is total; on
same-kind values it coincides with the Python order, and the 1-tuple wrapper
of the `ext` case is order-irrelevant.  `sx` is the ambient-locale `strxfrm`
(an arbitrary collation map). -/

/-- The comparable value one sort key yields for one node. -/
abbrev CompKey := Lex (Nat × Lex (Nat × String))

/-- The projection of one sort key, `_gen_comp`'s `cont` loop body. -/
def compVal (sx : String → String) (node : Node) : Sortby → CompKey
  | .is_folder =>
    toLex (0, toLex ((if Mode.folder ∈ node.mode then CompVals_FOLDER else CompVals_FILE), ""))
  | .ext => toLex (1, toLex (0, sx (node.ext.getD "")))
  | .fname => toLex (2, toLex (0, sx node.name))

/-- `_gen_comp(sortby)(node)`: the tuple of per-key projections. -/
def genComp (sx : String → String) (sortby : List Sortby) (node : Node) : List CompKey :=
  sortby.map (compVal sx node)

/-- The boolean comparison `sorted(..., key=comp)` sorts by: key of `a` at
most key of `b` in the lexicographic tuple order. -/
def compLe (sx : String → String) (sortby : List Sortby) (a b : Node) : Bool :=
  decide (genComp sx sortby a ≤ genComp sx sortby b)

/-! ### `render.py` lines 42-51: `_ignore` -/

/-- `_ignore(settings, vc)`: the `drop` predicate when hidden nodes are being
filtered. -/
def ignore (settings : Settings) (vc : VCStatus) (node : Node) : Bool :=
  decide (node.path ∈ vc.ignored)
    || settings.ignores.name.any (fun pattern => fnmatch node.name pattern)
    || settings.ignores.path.any (fun pattern => fnmatch node.path pattern)

/-- `render.py` lines 183-187: the `drop` predicate actually used, which is
`constantly(False)` when `show_hidden` is on. -/
def dropFn (settings : Settings) (vc : VCStatus) (show_hidden : Bool) : Node → Bool :=
  if show_hidden then fun _ => false else ignore settings vc

/-! ### `render.py` lines 54-168: `_paint` and its nested helpers -/

/-- The ordering of mode tags by `IntEnum` value. -/
def modeRel (a b : Mode) : Prop := a.val ≤ b.val

instance : DecidableRel modeRel := fun _ _ => Nat.decLe _ _

instance : IsTotal Mode modeRel := ⟨fun _ _ => Nat.le_total _ _⟩

instance : IsTrans Mode modeRel := ⟨fun _ _ _ => Nat.le_trans⟩

/-- `sorted(node.mode)`: the mode tags in ascending `IntEnum` order (the
source sorts a set, so it also deduplicates; duplicates in the embedded list
are harmless because every consumer takes the first hit).  A stable
structural sort stands in for Python's stable `sorted`. -/
def sModes (node : Node) : List Mode :=
  node.mode.insertionSort modeRel

/-- The first mode of `ms` that has an entry in `tbl` (the
`for mode in s_modes: ... if hl: return hl` loops; an `HLgroup` is always
truthy). -/
def firstModeHl (tbl : List (Mode × HLgroup)) : List Mode → Option HLgroup
  | [] => none
  | m :: ms =>
    match tbl.lookup m with
    | some hl => some hl
    | none => firstModeHl tbl ms

/-- Same loop over the post table, which is keyed by `Optional[Mode]`. -/
def firstModePostHl (tbl : List (Option Mode × HLgroup)) : List Mode → Option HLgroup
  | [] => none
  | m :: ms =>
    match tbl.lookup (some m) with
    | some hl => some hl
    | none => firstModePostHl tbl ms

/-- `search_hl(node)` (lines 71-89): the five-tier highlight resolution. -/
def search_hl (settings : Settings) (node : Node) : Option HLgroup :=
  let ctx := settings.view.hl_context
  match firstModeHl ctx.mode_lookup_pre (sModes node) with
  | some hl => some hl
  | none =>
    match ctx.ext_lookup.lookup (node.ext.getD "") with
    | some hl => some hl
    | none =>
      match ctx.name_lookup.findSome?
          (fun p => if fnmatch node.name p.1 then some p.2 else none) with
      | some group => some group
      | none =>
        match firstModePostHl ctx.mode_lookup_post (sModes node) with
        | some hl => some hl
        | none => ctx.mode_lookup_post.lookup none

/-- `gen_spacer(depth)` (lines 91-92): `(depth * 2 - 1) * " "` with Python's
negative-repeat-is-empty, which truncated `Nat` subtraction reproduces. -/
def gen_spacer (depth : Nat) : String :=
  String.mk (List.replicate (depth * 2 - 1) ' ')

/-- `gen_status(path)` (lines 94-97). -/
def gen_status (settings : Settings) (selection : List String) (current : Option String)
    (path : String) : String :=
  (if path ∈ selection then settings.view.icons.status.selected else " ")
    ++ (if current = some path then settings.view.icons.status.active else " ")

/-- `gen_decor_pre(node, depth)` joined (lines 99-101). -/
def gen_decor_pre (settings : Settings) (selection : List String) (current : Option String)
    (node : Node) (depth : Nat) : String :=
  gen_spacer depth ++ gen_status settings selection current node.path

/-- `gen_icon(node)` joined (lines 103-116).  Python's `A or B or C` chain on
strings is `strOr`. -/
def gen_icon (settings : Settings) (index : List String) (node : Node) : String :=
  let icons := settings.view.icons
  " "
    ++ (if Mode.folder ∈ node.mode then
          (if node.path ∈ index then icons.folder.opened else icons.folder.closed)
        else
          (if settings.view.use_icons then
            strOr ((icons.name_exact.lookup node.name).getD "")
              (strOr ((icons.type.lookup (node.ext.getD "")).getD "")
                ((icons.name_glob.findSome?
                    (fun p => if fnmatch node.name p.1 then some p.2 else none)).getD
                  icons.default_icon))
          else icons.default_icon))
    ++ " "

/-- `gen_name(node)` joined (lines 118-121): the display name with embedded
line separators replaced by the literal two-character escape `\x5c n`, plus a
trailing path separator for folders when icons are disabled. -/
def gen_name (settings : Settings) (node : Node) : String :=
  pyReplace node.name linesep "\\n"
    ++ (if !settings.view.use_icons && Mode.folder ∈ node.mode then sep else "")

/-- `gen_decor_post(node)` joined (lines 123-130). -/
def gen_decor_post (settings : Settings) (node : Node) : String :=
  if Mode.orphan_link ∈ node.mode then " " ++ settings.view.icons.link.broken
  else if Mode.link ∈ node.mode then " " ++ settings.view.icons.link.normal
  else ""

/-- `gen_badges(path)` exhausted (lines 132-138).  The quickfix count is read
by subscripting (`qf.locations[path]`), so a missing key raises (`none`); the
VC status is read with `.get` and tested for truthiness (`None` and the empty
string are falsy). -/
def gen_badges (settings : Settings) (qf : QuickFix) (vc : VCStatus) (path : String) :
    Option (List Badge) :=
  match qf.locations.subscript path with
  | none => none
  | some qf_count =>
    let stat := vc.status.lookup path
    some ((if qf_count != 0 then
            [{ text := "(" ++ toString qf_count ++ ")",
               group := settings.view.highlights.groups.quickfix }]
          else [])
      ++ (match stat with
          | some st =>
            if st != "" then
              [{ text := "[" ++ st ++ "]",
                 group := settings.view.highlights.groups.version_control }]
            else []
          | none => []))

/-- `gen_highlights(node, pre, icon, name)` exhausted (lines 140-154): the
extension span over the icon region, then the resolved span over the name
region (whose `begin` is the icon region's `end` even when the extension span
was not emitted, because line 144 runs unconditionally). -/
def gen_highlights (settings : Settings) (node : Node) (pre icon name : String) :
    List Highlight :=
  let b0 := byteLen pre
  let e0 := b0 + byteLen icon
  (match settings.view.highlights.exts.lookup (node.ext.getD "") with
   | some group => [{ group := group.name, begin_ := b0, end_ := e0 }]
   | none => [])
    ++ (match search_hl settings node with
        | some group => [{ group := group.name, begin_ := e0, end_ := e0 + byteLen name }]
        | none => [])

/-- `show(node, depth)` (lines 156-166), the painter `_paint` returns; `none`
models the `KeyError` a plain quickfix mapping raises on a missing path. -/
def paint (settings : Settings) (index : List String) (selection : List String)
    (qf : QuickFix) (vc : VCStatus) (current : Option String)
    (node : Node) (depth : Nat) : Option Render :=
  let pre := gen_decor_pre settings selection current node depth
  let icon := gen_icon settings index node
  let name := gen_name settings node
  let post := gen_decor_post settings node
  let line := pre ++ icon ++ name ++ post
  match gen_badges settings qf vc node.path with
  | none => none
  | some badges =>
    some { line := line, badges := badges,
           highlights := gen_highlights settings node pre icon name }

/-! ### `render.py` lines 171-217: `render` and its inner recursion -/

/-- The `clear` computation of the inner `render` (lines 197-199): an
ancestor already cleared, or no filter pattern is active (`not filter_pattern`;
a `FilterPattern` instance is always truthy), or the node's name matches the
pattern's glob. -/
def clearFlag (filter_pattern : Option FilterPattern) (cleared : Bool) (node : Node) : Bool :=
  cleared
    || (match filter_pattern with
        | none => true
        | some fp => fnmatch node.name fp.pattern)

/-- The surviving children in source enumeration order (the filtering
generator of line 203). -/
def keptChildren (settings : Settings) (vc : VCStatus) (show_hidden : Bool) (node : Node) :
    List Node :=
  node.children.filter (fun child => !dropFn settings vc show_hidden child)

/-- `sorted(gen, key=comp)` of line 204: the surviving children, stably
sorted by the comparator. -/
def sortedChildren (sx : String → String) (settings : Settings) (vc : VCStatus)
    (show_hidden : Bool) (node : Node) : List Node :=
  (keptChildren settings vc show_hidden node).mergeSort (compLe sx settings.view.sort_by)

theorem sizeOf_children_lt (n : Node) : sizeOf n.children < sizeOf n := by
  cases n
  simp [Node.children]

theorem sizeOf_lt_of_mem_sortedChildren {sx : String → String} {settings : Settings}
    {vc : VCStatus} {show_hidden : Bool} {n c : Node}
    (h : c ∈ sortedChildren sx settings vc show_hidden n) : sizeOf c < sizeOf n := by
  have hc : c ∈ n.children := by
    have h' : c ∈ (keptChildren settings vc show_hidden n).mergeSort
        (compLe sx settings.view.sort_by) := h
    exact List.mem_of_mem_filter (List.mem_mergeSort.mp h')
  have h1 := List.sizeOf_lt_of_mem hc
  have h2 := sizeOf_children_lt n
  omega

/-- The inner recursive `render` of lines 194-210, with `keep_open` already
specialised to the singleton `{root_path}` that line 192 builds.  A pair
`(node, rend)` is yielded for the node itself only if it is clear, or some
recursed child subtree survived, or its path is the root's; the recursed
child blocks follow in sorted order.  `none` models a propagated exception
from `show`. -/
def walk (sx : String → String) (settings : Settings) (index : List String)
    (selection : List String) (filter_pattern : Option FilterPattern) (qf : QuickFix)
    (vc : VCStatus) (show_hidden : Bool) (current : Option String) (root_path : String)
    (node : Node) (depth : Nat) (cleared : Bool) : Option (List (Node × Render)) :=
  let clear := clearFlag filter_pattern cleared node
  match paint settings index selection qf vc current node depth with
  | none => none
  | some rend =>
    match seqOpt ((sortedChildren sx settings vc show_hidden node).attach.map
        (fun c => walk sx settings index selection filter_pattern qf vc show_hidden
          current root_path c.1 (depth + 1) clear)) with
    | none => none
    | some blocks =>
      let children := blocks.flatten
      some ((if clear || !children.isEmpty || node.path == root_path
             then [(node, rend)] else [])
        ++ children)
termination_by sizeOf node
decreasing_by
  exact sizeOf_lt_of_mem_sortedChildren c.2

/-- `render(node, ...)` (lines 171-217): run the walk from the root with
`depth=0`, `cleared=False`, unzip the pairs, and build the reverse path
index.  `none` models a raised exception (the walk is never empty on success
because the root is always yielded, so the source's `zip(*...)` cannot fail
on an empty sequence). -/
def render (sx : String → String) (node : Node) (settings : Settings)
    (index : List String) (selection : List String)
    (filter_pattern : Option FilterPattern) (qf : QuickFix) (vc : VCStatus)
    (show_hidden : Bool) (current : Option String) : Option Derived :=
  match walk sx settings index selection filter_pattern qf vc show_hidden current
      node.path node 0 false with
  | none => none
  | some pairs =>
    let lookup := pairs.map Prod.fst
    let rendered := pairs.map Prod.snd
    let paths_lookup := lookup.enum.map (fun p => (p.2.path, p.1))
    some { lookup := lookup, paths_lookup := paths_lookup, rendered := rendered }

/-! ### Helper lemmas about the embedding -/

theorem seqOpt_eq_some {α : Type} {xs : List (Option α)} {ys : List α} :
    seqOpt xs = some ys ↔ xs = ys.map some := by
  induction xs generalizing ys with
  | nil =>
    cases ys <;> simp [seqOpt]
  | cons x xs ih =>
    cases x with
    | none =>
      simp only [seqOpt]
      cases ys <;> simp
    | some a =>
      cases ys with
      | nil => simp [seqOpt]
      | cons b bs =>
        simp only [seqOpt, List.map_cons, List.cons.injEq, Option.some.injEq, Option.map_eq_some']
        constructor
        · rintro ⟨l, hl, hab, rfl⟩
          exact ⟨hab, ih.mp hl⟩
        · rintro ⟨hab, hxs⟩
          exact ⟨bs, ih.mpr hxs, hab, rfl⟩

/-- The equation of `walk` with the membership bookkeeping of `attach`
removed. -/
theorem walk_eq (sx : String → String) (settings : Settings) (index : List String)
    (selection : List String) (filter_pattern : Option FilterPattern) (qf : QuickFix)
    (vc : VCStatus) (show_hidden : Bool) (current : Option String) (root_path : String)
    (node : Node) (depth : Nat) (cleared : Bool) :
    walk sx settings index selection filter_pattern qf vc show_hidden current root_path
        node depth cleared =
      (match paint settings index selection qf vc current node depth with
       | none => none
       | some rend =>
         match seqOpt ((sortedChildren sx settings vc show_hidden node).map
             (fun c => walk sx settings index selection filter_pattern qf vc show_hidden
               current root_path c (depth + 1)
               (clearFlag filter_pattern cleared node))) with
         | none => none
         | some blocks =>
           some ((if clearFlag filter_pattern cleared node
                    || !blocks.flatten.isEmpty || node.path == root_path
                  then [(node, rend)] else [])
             ++ blocks.flatten)) := by
  rw [walk]
  rw [List.attach_map_val (sortedChildren sx settings vc show_hidden node)
    (fun c => walk sx settings index selection filter_pattern qf vc show_hidden
      current root_path c (depth + 1) (clearFlag filter_pattern cleared node))]

/-- The node sequence the inner `render` yields, computed without the render
payloads: the node's own entry if it is kept, followed by the recursed child
blocks.  `walk_fst` below proves this is the first projection of a successful
`walk`. -/
def flat (sx : String → String) (settings : Settings)
    (filter_pattern : Option FilterPattern) (vc : VCStatus) (show_hidden : Bool)
    (root_path : String) (node : Node) (cleared : Bool) : List Node :=
  let clear := clearFlag filter_pattern cleared node
  let children := ((sortedChildren sx settings vc show_hidden node).attach.map
      (fun c => flat sx settings filter_pattern vc show_hidden root_path c.1 clear)).flatten
  (if clear || !children.isEmpty || node.path == root_path then [node] else []) ++ children
termination_by sizeOf node
decreasing_by
  exact sizeOf_lt_of_mem_sortedChildren c.2

/-- The equation of `flat` without `attach`. -/
theorem flat_eq (sx : String → String) (settings : Settings)
    (filter_pattern : Option FilterPattern) (vc : VCStatus) (show_hidden : Bool)
    (root_path : String) (node : Node) (cleared : Bool) :
    flat sx settings filter_pattern vc show_hidden root_path node cleared =
      (if clearFlag filter_pattern cleared node
          || !((sortedChildren sx settings vc show_hidden node).map
              (fun c => flat sx settings filter_pattern vc show_hidden root_path c
                (clearFlag filter_pattern cleared node))).flatten.isEmpty
          || node.path == root_path
       then [node] else [])
        ++ ((sortedChildren sx settings vc show_hidden node).map
            (fun c => flat sx settings filter_pattern vc show_hidden root_path c
              (clearFlag filter_pattern cleared node))).flatten := by
  rw [flat]
  rw [List.attach_map_val (sortedChildren sx settings vc show_hidden node)
    (fun c => flat sx settings filter_pattern vc show_hidden root_path c
      (clearFlag filter_pattern cleared node))]

/-- Pointwise transfer along `cs.map f = bs.map some`. -/
theorem map_of_map_eq_map_some {α β γ : Type} {f : α → Option β} {g : β → γ} {h : α → γ} :
    ∀ {cs : List α} {bs : List β}, cs.map f = bs.map some →
      (∀ c ∈ cs, ∀ b, f c = some b → g b = h c) → bs.map g = cs.map h := by
  intro cs
  induction cs with
  | nil =>
    intro bs hmap _
    cases bs <;> simp_all
  | cons c cs ih =>
    intro bs hmap hpt
    cases bs with
    | nil => simp at hmap
    | cons b bs =>
      simp only [List.map_cons, List.cons.injEq] at hmap ⊢
      exact ⟨hpt c (by simp) b hmap.1,
        ih hmap.2 (fun c' hc' b' hb' => hpt c' (by simp [hc']) b' hb')⟩

/-- On success, the first projection of the pairs `walk` yields is `flat`. -/
theorem walk_fst (sx : String → String) (settings : Settings) (index : List String)
    (selection : List String) (filter_pattern : Option FilterPattern) (qf : QuickFix)
    (vc : VCStatus) (show_hidden : Bool) (current : Option String) (root_path : String)
    (node : Node) (depth : Nat) (cleared : Bool)
    (pairs : List (Node × Render))
    (h : walk sx settings index selection filter_pattern qf vc show_hidden current
      root_path node depth cleared = some pairs) :
    pairs.map Prod.fst = flat sx settings filter_pattern vc show_hidden root_path
      node cleared := by
  rw [walk_eq] at h
  rw [flat_eq]
  cases hp : paint settings index selection qf vc current node depth with
  | none => rw [hp] at h; cases h
  | some rend =>
    rw [hp] at h
    cases hs : seqOpt ((sortedChildren sx settings vc show_hidden node).map
        (fun c => walk sx settings index selection filter_pattern qf vc show_hidden
          current root_path c (depth + 1) (clearFlag filter_pattern cleared node))) with
    | none => rw [hs] at h; cases h
    | some blocks =>
      rw [hs] at h
      simp only [Option.some.injEq] at h
      subst h
      have key : blocks.map (List.map Prod.fst) =
          (sortedChildren sx settings vc show_hidden node).map
            (fun c => flat sx settings filter_pattern vc show_hidden root_path c
              (clearFlag filter_pattern cleared node)) := by
        refine map_of_map_eq_map_some (seqOpt_eq_some.mp hs) ?_
        intro c hc b hb
        exact walk_fst sx settings index selection filter_pattern qf vc show_hidden
          current root_path c (depth + 1) (clearFlag filter_pattern cleared node) b hb
      have hflat : blocks.flatten.map Prod.fst =
          ((sortedChildren sx settings vc show_hidden node).map
            (fun c => flat sx settings filter_pattern vc show_hidden root_path c
              (clearFlag filter_pattern cleared node))).flatten := by
        rw [List.map_flatten, key]
      have hempty : blocks.flatten.isEmpty =
          ((sortedChildren sx settings vc show_hidden node).map
            (fun c => flat sx settings filter_pattern vc show_hidden root_path c
              (clearFlag filter_pattern cleared node))).flatten.isEmpty := by
        rw [← hflat]
        cases blocks.flatten <;> simp
      rw [List.map_append, hflat, ← hempty]
      by_cases hcond : (clearFlag filter_pattern cleared node
          || !blocks.flatten.isEmpty || node.path == root_path) = true
      · rw [if_pos hcond, if_pos hcond]
        simp
      · rw [if_neg hcond, if_neg hcond]
        simp
termination_by sizeOf node
decreasing_by
  exact sizeOf_lt_of_mem_sortedChildren hc

/-- Membership in a node's sorted surviving children implies membership in
its raw children with the drop predicate false. -/
theorem mem_children_of_mem_sortedChildren {sx : String → String} {settings : Settings}
    {vc : VCStatus} {show_hidden : Bool} {n c : Node}
    (h : c ∈ sortedChildren sx settings vc show_hidden n) :
    c ∈ n.children ∧ dropFn settings vc show_hidden c = false := by
  have hk : c ∈ keptChildren settings vc show_hidden n := by
    have h' : c ∈ (keptChildren settings vc show_hidden n).mergeSort
        (compLe sx settings.view.sort_by) := h
    exact List.mem_mergeSort.mp h' 
  have := List.mem_filter.mp hk
  refine ⟨this.1, ?_⟩
  have h2 := this.2
  cases hd : dropFn settings vc show_hidden c <;> simp [hd] at h2 ⊢

/-! ### Claim theorems -/

/-- C4: with `show_hidden` off, a node is dropped iff its path is VC-ignored,
or its name matches a configured name-glob, or its path matches a configured
path-glob; with `show_hidden` on the drop predicate is the constant `false`
(so every child survives filtering); and every node of the walk output other
than the walked node itself is reached through a surviving (non-dropped)
child, so a dropped child's whole subtree never appears in the output. -/
theorem claim_C4 (settings : Settings) (vc : VCStatus) :
    (∀ node : Node,
      dropFn settings vc false node = true ↔
        (node.path ∈ vc.ignored
          ∨ (∃ p ∈ settings.ignores.name, fnmatch node.name p = true)
          ∨ (∃ p ∈ settings.ignores.path, fnmatch node.path p = true)))
    ∧ (dropFn settings vc true = fun _ => false)
    ∧ (∀ node : Node, keptChildren settings vc true node = node.children)
    ∧ (∀ (sx : String → String) (filter_pattern : Option FilterPattern)
        (show_hidden : Bool) (root_path : String) (node : Node) (cleared : Bool)
        (x : Node),
        x ∈ flat sx settings filter_pattern vc show_hidden root_path node cleared →
        x = node ∨ ∃ c ∈ node.children,
          dropFn settings vc show_hidden c = false
            ∧ x ∈ flat sx settings filter_pattern vc show_hidden root_path c
                (clearFlag filter_pattern cleared node)) := by
  refine ⟨?_, ?_, ?_, ?_⟩
  · intro node
    simp [dropFn, ignore, List.any_eq_true, or_assoc]
  · simp [dropFn]
  · intro node
    simp [keptChildren, dropFn]
  · intro sx filter_pattern show_hidden root_path node cleared x hx
    rw [flat_eq] at hx
    rcases List.mem_append.mp hx with hself | hchild
    · left
      by_cases hc : (clearFlag filter_pattern cleared node
          || !((sortedChildren sx settings vc show_hidden node).map
              (fun c => flat sx settings filter_pattern vc show_hidden root_path c
                (clearFlag filter_pattern cleared node))).flatten.isEmpty
          || node.path == root_path) = true
      · rw [if_pos hc] at hself
        simpa using hself
      · rw [if_neg hc] at hself
        simp at hself
    · right
      rcases List.mem_flatten.mp hchild with ⟨l, hl, hxl⟩
      rcases List.mem_map.mp hl with ⟨c, hc, rfl⟩
      have := mem_children_of_mem_sortedChildren hc
      exact ⟨c, this.1, this.2, hxl⟩

/-! ### Concrete sample inputs, used by the witness theorems -/

/-- A small concrete settings value (ignore name-globs `*.log`). -/
def sampleSettings : Settings :=
  { view := { hl_context := ⟨[], [(none, ⟨"Normal"⟩)], [("txt", ⟨"TxtHl"⟩)], []⟩,
              highlights := ⟨⟨⟨"QfHl"⟩, ⟨"VcHl"⟩⟩, [("txt", ⟨"TxtExtHl"⟩)]⟩,
              icons := ⟨⟨"v", ">"⟩, ⟨"~", "!"⟩, ⟨"*", "@"⟩, [], [], [], "#"⟩,
              sort_by := [.is_folder, .fname], use_icons := true },
    ignores := { name := ["*.log"], path := [] } }

/-- A small concrete VC snapshot. -/
def sampleVC : VCStatus := ⟨["/r/ign"], [("/r/b.txt", "M")]⟩

/-- A `Counter`-style quickfix mapping (default 0, one nonzero count). -/
def sampleQF : QuickFix := ⟨⟨[("/r/b.txt", 3)], some 0⟩⟩

/-- A sample leaf node that the ignore name-glob `*.log` matches. -/
def sampleLog : Node := .mk "/r/a.log" "a.log" (some "log") [] []

/-- A sample file node. -/
def sampleTxt : Node := .mk "/r/b.txt" "b.txt" (some "txt") [] []

/-- A sample root with a single child. -/
def sampleRoot : Node := .mk "/r" "r" none [Mode.folder] [sampleTxt]

/-- C4 witness: `claim_C4` applied at concrete inputs; the iff's reverse
direction shows the `*.log` child is dropped because its name matches the
configured name-glob. -/
theorem claim_C4_witness :
    dropFn sampleSettings sampleVC false sampleLog = true :=
  ((claim_C4 sampleSettings sampleVC).1 sampleLog).mpr
    (Or.inr (Or.inl ⟨"*.log", by simp [sampleSettings], by decide⟩))

/-! ### The five tiers of the highlight resolver, as the spec describes them -/

/-- Tier 1: first sorted mode tag with a configured `pre` mapping. -/
def hlTier1 (settings : Settings) (node : Node) : Option HLgroup :=
  firstModeHl settings.view.hl_context.mode_lookup_pre (sModes node)

/-- Tier 2: the exact extension mapping. -/
def hlTier2 (settings : Settings) (node : Node) : Option HLgroup :=
  settings.view.hl_context.ext_lookup.lookup (node.ext.getD "")

/-- Tier 3: first configured name-glob mapping whose pattern matches. -/
def hlTier3 (settings : Settings) (node : Node) : Option HLgroup :=
  settings.view.hl_context.name_lookup.findSome?
    (fun p => if fnmatch node.name p.1 then some p.2 else none)

/-- Tier 4: first sorted mode tag with a configured `post` mapping. -/
def hlTier4 (settings : Settings) (node : Node) : Option HLgroup :=
  firstModePostHl settings.view.hl_context.mode_lookup_post (sModes node)

/-- Tier 5: the `post` mapping's entry for the no-tag key (may be absent). -/
def hlTier5 (settings : Settings) : Option HLgroup :=
  settings.view.hl_context.mode_lookup_post.lookup none

/-- C5: the resolver returns the first match of the five tiers in order, each
tier skipped iff it yields nothing; the mode-tag tiers take the first hit of
the tags iterated in the fixed sorted order (`sModes`, which is sorted by the
enum value and enumerates exactly the node's tags). -/
theorem claim_C5 (settings : Settings) (node : Node) :
    (∀ g, search_hl settings node = some g ↔
      (hlTier1 settings node = some g
        ∨ (hlTier1 settings node = none ∧ (hlTier2 settings node = some g
          ∨ (hlTier2 settings node = none ∧ (hlTier3 settings node = some g
            ∨ (hlTier3 settings node = none ∧ (hlTier4 settings node = some g
              ∨ (hlTier4 settings node = none ∧ hlTier5 settings = some g)))))))))
    ∧ (search_hl settings node = none ↔
        (hlTier1 settings node = none ∧ hlTier2 settings node = none
          ∧ hlTier3 settings node = none ∧ hlTier4 settings node = none
          ∧ hlTier5 settings = none))
    ∧ (∀ tbl ms, firstModeHl tbl ms = ms.findSome? (fun m => tbl.lookup m))
    ∧ (∀ tbl ms, firstModePostHl tbl ms = ms.findSome? (fun m => tbl.lookup (some m)))
    ∧ (sModes node).Pairwise (fun a b => a.val ≤ b.val)
    ∧ (sModes node).Perm node.mode := by
  have hchar : ∀ tbl ms, firstModeHl tbl ms = ms.findSome? (fun m => tbl.lookup m) := by
    intro tbl ms
    induction ms with
    | nil => rfl
    | cons m ms ih =>
      simp only [firstModeHl, List.findSome?_cons]
      cases tbl.lookup m <;> simp [ih]
  have hchar' : ∀ tbl ms,
      firstModePostHl tbl ms = ms.findSome? (fun m => tbl.lookup (some m)) := by
    intro tbl ms
    induction ms with
    | nil => rfl
    | cons m ms ih =>
      simp only [firstModePostHl, List.findSome?_cons]
      cases tbl.lookup (some m) <;> simp [ih]
  refine ⟨?_, ?_, hchar, hchar', ?_, ?_⟩
  · intro g
    simp only [search_hl, hlTier1, hlTier2, hlTier3, hlTier4, hlTier5]
    cases h1 : firstModeHl settings.view.hl_context.mode_lookup_pre (sModes node) <;>
      cases h2 : settings.view.hl_context.ext_lookup.lookup (node.ext.getD "") <;>
        cases h3 : settings.view.hl_context.name_lookup.findSome?
            (fun p => if fnmatch node.name p.1 then some p.2 else none) <;>
          cases h4 : firstModePostHl settings.view.hl_context.mode_lookup_post
              (sModes node) <;>
            simp [h1, h2, h3, h4]
  · simp only [search_hl, hlTier1, hlTier2, hlTier3, hlTier4, hlTier5]
    cases h1 : firstModeHl settings.view.hl_context.mode_lookup_pre (sModes node) <;>
      cases h2 : settings.view.hl_context.ext_lookup.lookup (node.ext.getD "") <;>
        cases h3 : settings.view.hl_context.name_lookup.findSome?
            (fun p => if fnmatch node.name p.1 then some p.2 else none) <;>
          cases h4 : firstModePostHl settings.view.hl_context.mode_lookup_post
              (sModes node) <;>
            simp [h1, h2, h3, h4]
  · exact List.sorted_insertionSort modeRel node.mode
  · exact List.perm_insertionSort modeRel node.mode

/-- A VC snapshot that records the *empty string* as a path's status code:
the path then has a VC status entry, but `if stat:` is false in Python for
the empty string, so no VC badge is emitted. -/
def emptyStatusVC : VCStatus := ⟨[], [("/r/b.txt", "")]⟩

/-- C8 counterexample to the claim as stated: for `/r/b.txt` the VC status
mapping *does* have an entry (hence "the path has a VC status"), yet the
emitted badges contain no version-control badge, because the entry's code is
the empty string, which is falsy.  (The quickfix badge `(3)` is emitted as
expected.) -/
theorem claim_C8_counterexample :
    gen_badges sampleSettings sampleQF emptyStatusVC "/r/b.txt"
        = some [{ text := "(3)", group := ⟨"QfHl"⟩ }]
      ∧ emptyStatusVC.status.lookup "/r/b.txt" = some "" := by
  constructor <;> rfl

/-- C8 as amended ("nonempty VC status"): on a successful quickfix read, the
badges are exactly the quickfix badge `(N)` iff the count `N` is nonzero,
followed by the VC badge `[code]` iff the path has a *nonempty* VC status
code; each is independently optional, the quickfix badge precedes the VC
badge, and no other badge is ever emitted. -/
theorem claim_C8 (settings : Settings) (qf : QuickFix) (vc : VCStatus) (path : String)
    (cnt : Nat) (h : qf.locations.subscript path = some cnt) :
    gen_badges settings qf vc path = some
      ((if cnt ≠ 0 then
          [{ text := "(" ++ toString cnt ++ ")",
             group := settings.view.highlights.groups.quickfix }]
        else [])
        ++ (match vc.status.lookup path with
            | some st =>
              if st ≠ "" then
                [{ text := "[" ++ st ++ "]",
                   group := settings.view.highlights.groups.version_control }]
              else []
            | none => [])) := by
  simp only [gen_badges, h]
  by_cases hc : cnt = 0 <;>
    cases hst : vc.status.lookup path <;>
      simp [hc, hst, bne_iff_ne]

/-- C8 witness: `claim_C8` at concrete inputs (count 3 and status `M` both
present), yielding the badge pair in quickfix-then-VC order. -/
theorem claim_C8_witness :
    gen_badges sampleSettings sampleQF sampleVC "/r/b.txt"
      = some [{ text := "(3)", group := ⟨"QfHl"⟩ },
              { text := "[M]", group := ⟨"VcHl"⟩ }] := by
  rw [claim_C8 sampleSettings sampleQF sampleVC "/r/b.txt" 3 rfl]
  rfl

/-- If `b` appears in `bs` and `cs.map f = bs.map some`, some `c ∈ cs`
produced it. -/
theorem exists_of_map_eq_map_some {α β : Type} {f : α → Option β} :
    ∀ {cs : List α} {bs : List β}, cs.map f = bs.map some → ∀ {b}, b ∈ bs →
      ∃ c ∈ cs, f c = some b := by
  intro cs
  induction cs with
  | nil =>
    intro bs hmap b hb
    cases bs with
    | nil => cases hb
    | cons x xs => simp at hmap
  | cons c cs ih =>
    intro bs hmap b hb
    cases bs with
    | nil => cases hb
    | cons x xs =>
      simp only [List.map_cons, List.cons.injEq] at hmap
      rcases List.mem_cons.mp hb with rfl | hb'
      · exact ⟨c, by simp, hmap.1⟩
      · rcases ih hmap.2 hb' with ⟨c', hc', hfc'⟩
        exact ⟨c', by simp [hc'], hfc'⟩

/-- A successful paint implies the quickfix subscript succeeded. -/
theorem subscript_isSome_of_paint (settings : Settings) (index selection : List String)
    (qf : QuickFix) (vc : VCStatus) (current : Option String) (node : Node) (depth : Nat)
    (r : Render) (h : paint settings index selection qf vc current node depth = some r) :
    (qf.locations.subscript node.path).isSome = true := by
  simp only [paint] at h
  cases hb : gen_badges settings qf vc node.path with
  | none => rw [hb] at h; cases h
  | some bs =>
    simp only [gen_badges] at hb
    cases hs : qf.locations.subscript node.path with
    | none => rw [hs] at hb; cases hb
    | some v => rfl

/-- Every node a successful walk yields was painted with a successful
quickfix subscript. -/
theorem walk_subscript (sx : String → String) (settings : Settings) (index : List String)
    (selection : List String) (filter_pattern : Option FilterPattern) (qf : QuickFix)
    (vc : VCStatus) (show_hidden : Bool) (current : Option String) (root_path : String)
    (node : Node) (depth : Nat) (cleared : Bool) (pairs : List (Node × Render))
    (h : walk sx settings index selection filter_pattern qf vc show_hidden current
      root_path node depth cleared = some pairs) :
    ∀ p ∈ pairs, (qf.locations.subscript p.1.path).isSome = true := by
  rw [walk_eq] at h
  cases hp : paint settings index selection qf vc current node depth with
  | none => rw [hp] at h; cases h
  | some rend =>
    rw [hp] at h
    cases hs : seqOpt ((sortedChildren sx settings vc show_hidden node).map
        (fun c => walk sx settings index selection filter_pattern qf vc show_hidden
          current root_path c (depth + 1) (clearFlag filter_pattern cleared node))) with
    | none => rw [hs] at h; cases h
    | some blocks =>
      rw [hs] at h
      simp only [Option.some.injEq] at h
      subst h
      intro p hp'
      rcases List.mem_append.mp hp' with hself | hchild
      · have hpnode : p = (node, rend) := by
          by_cases hcond : (clearFlag filter_pattern cleared node
              || !blocks.flatten.isEmpty || node.path == root_path) = true
          · rw [if_pos hcond] at hself
            simpa using hself
          · rw [if_neg hcond] at hself
            simp at hself
        subst hpnode
        exact subscript_isSome_of_paint settings index selection qf vc current node
          depth rend hp
      · rcases List.mem_flatten.mp hchild with ⟨b, hb, hpb⟩
        rcases exists_of_map_eq_map_some (seqOpt_eq_some.mp hs) hb with ⟨c, hc, hwc⟩
        exact walk_subscript sx settings index selection filter_pattern qf vc
          show_hidden current root_path c (depth + 1)
          (clearFlag filter_pattern cleared node) b hwc p hpb
termination_by sizeOf node
decreasing_by
  exact sizeOf_lt_of_mem_sortedChildren hc

/-- C10: the painter reads the quickfix count by subscripting, so (first
conjunct) a render call that completes did obtain a quickfix value for every
visible node's path, and (second conjunct) with a plain mapping that lacks a
node's path, painting that node raises a lookup error (`none`) instead of
emitting no badge. -/
theorem claim_C10 :
    (∀ (sx : String → String) (node : Node) (settings : Settings)
        (index selection : List String) (filter_pattern : Option FilterPattern)
        (qf : QuickFix) (vc : VCStatus) (show_hidden : Bool) (current : Option String)
        (d : Derived),
      render sx node settings index selection filter_pattern qf vc show_hidden current
          = some d →
        ∀ nd ∈ d.lookup, (qf.locations.subscript nd.path).isSome = true)
    ∧ (∀ (settings : Settings) (index selection : List String) (qf : QuickFix)
        (vc : VCStatus) (current : Option String) (node : Node) (depth : Nat),
      qf.locations.default = none → qf.locations.entries.lookup node.path = none →
      paint settings index selection qf vc current node depth = none) := by
  constructor
  · intro sx node settings index selection filter_pattern qf vc show_hidden current d h
    intro nd hnd
    simp only [render] at h
    cases hw : walk sx settings index selection filter_pattern qf vc show_hidden current
        node.path node 0 false with
    | none => rw [hw] at h; cases h
    | some pairs =>
      rw [hw] at h
      simp only [Option.some.injEq] at h
      subst h
      simp only [List.mem_map] at hnd
      rcases hnd with ⟨p, hp, rfl⟩
      exact walk_subscript sx settings index selection filter_pattern qf vc show_hidden
        current node.path node 0 false pairs hw p hp
  · intro settings index selection qf vc current node depth h1 h2
    simp [paint, gen_badges, PyIntMapping.subscript, h1, h2]

/-- C10 witness: with the empty plain mapping (no default), painting any
node raises (`none`). -/
theorem claim_C10_witness :
    paint sampleSettings [] [] ⟨⟨[], none⟩⟩ sampleVC none sampleTxt 1 = none :=
  claim_C10.2 sampleSettings [] [] ⟨⟨[], none⟩⟩ sampleVC none sampleTxt 1 rfl rfl

/-- A key that occurs in an association list is found by `lookup`. -/
theorem lookup_ne_none_of_mem {β : Type} {l : List (String × β)} {k : String} {v : β}
    (h : (k, v) ∈ l) : l.lookup k ≠ none := by
  induction l with
  | nil => cases h
  | cons p l ih =>
    obtain ⟨k', v'⟩ := p
    rcases List.mem_cons.mp h with heq | h'
    · obtain ⟨rfl, rfl⟩ := Prod.mk.injEq .. ▸ heq
      simp [List.lookup]
    · specialize ih h'
      cases hb : (k == k') <;> simp [List.lookup, hb, ih]

/-- When the walk starts at the root (so `root_path` is the node's own path),
the node itself is always the first pair yielded. -/
theorem walk_root_head (sx : String → String) (settings : Settings) (index : List String)
    (selection : List String) (filter_pattern : Option FilterPattern) (qf : QuickFix)
    (vc : VCStatus) (show_hidden : Bool) (current : Option String)
    (node : Node) (depth : Nat) (cleared : Bool) (pairs : List (Node × Render))
    (h : walk sx settings index selection filter_pattern qf vc show_hidden current
      node.path node depth cleared = some pairs) :
    ∃ rend rest, pairs = (node, rend) :: rest := by
  rw [walk_eq] at h
  cases hp : paint settings index selection qf vc current node depth with
  | none => rw [hp] at h; cases h
  | some rend =>
    rw [hp] at h
    cases hs : seqOpt ((sortedChildren sx settings vc show_hidden node).map
        (fun c => walk sx settings index selection filter_pattern qf vc show_hidden
          current node.path c (depth + 1) (clearFlag filter_pattern cleared node))) with
    | none => rw [hs] at h; cases h
    | some blocks =>
      rw [hs] at h
      simp only [Option.some.injEq] at h
      subst h
      refine ⟨rend, blocks.flatten, ?_⟩
      simp

/-- C3: for every filter pattern (including one that matches nothing) and
every tree, if the render call returns, the root's path is a key of
`paths_lookup`; indeed the root is the very first entry of the flattened
output. -/
theorem claim_C3 (sx : String → String) (node : Node) (settings : Settings)
    (index selection : List String) (filter_pattern : Option FilterPattern)
    (qf : QuickFix) (vc : VCStatus) (show_hidden : Bool) (current : Option String)
    (d : Derived)
    (h : render sx node settings index selection filter_pattern qf vc show_hidden current
      = some d) :
    dictGet d.paths_lookup node.path ≠ none ∧ d.lookup.head? = some node := by
  simp only [render] at h
  cases hw : walk sx settings index selection filter_pattern qf vc show_hidden current
      node.path node 0 false with
  | none => rw [hw] at h; cases h
  | some pairs =>
    rw [hw] at h
    simp only [Option.some.injEq] at h
    subst h
    obtain ⟨rend, rest, rfl⟩ := walk_root_head sx settings index selection filter_pattern
      qf vc show_hidden current node 0 false pairs hw
    constructor
    · have hmem : (node.path, 0) ∈
          (((((node, rend) :: rest).map Prod.fst).enum).map (fun p => (p.2.path, p.1))) := by
        simp [List.enum_cons]
      exact fun hnone =>
        lookup_ne_none_of_mem (List.mem_reverse.mpr hmem) hnone
    · simp

/-- A quickfix mapping with `Counter` semantics and no entries. -/
def counterQF : QuickFix := ⟨⟨[], some 0⟩⟩

/-- An empty VC snapshot. -/
def emptyVC : VCStatus := ⟨[], []⟩

/-- A single childless root node. -/
def soloNode : Node := .mk "/s" "s" none [] []

/-- The evaluation of the embedded render on the solo node under
`sampleSettings`, with a filter pattern that matches nothing: the root is
still produced. -/
theorem render_solo_eq :
    render (fun s => s) soloNode sampleSettings [] [] (some ⟨"*.zzz"⟩) counterQF emptyVC
        false none =
      some { lookup := [soloNode],
             paths_lookup := [("/s", 0)],
             rendered := [{ line := "   # s", badges := [],
                            highlights := [{ group := "Normal", begin_ := 5,
                                             end_ := 6 }] }] } := by
  have hw : walk (fun s => s) sampleSettings [] [] (some ⟨"*.zzz"⟩) counterQF emptyVC
      false none "/s" soloNode 0 false =
      some [(soloNode, { line := "   # s", badges := [],
                         highlights := [{ group := "Normal", begin_ := 5,
                                          end_ := 6 }] })] := by
    rw [walk_eq]
    simp only [sortedChildren, keptChildren, soloNode, Node.children, List.filter_nil,
      List.mergeSort_nil, List.map_nil]
    rfl
  simp only [render, soloNode, Node.path] at hw ⊢
  rw [hw]
  rfl

/-- C3 witness: `claim_C3` applied to the concrete solo-node render above. -/
theorem claim_C3_witness :
    dictGet [("/s", 0)] "/s" ≠ none :=
  (claim_C3 (fun s => s) soloNode sampleSettings [] [] (some ⟨"*.zzz"⟩) counterQF emptyVC
    false none _ render_solo_eq).1

theorem byteLen_append (s t : String) : byteLen (s ++ t) = byteLen s + byteLen t := by
  simp [byteLen, String.data_append]

/-- A byte offset that falls on a whole-character boundary of `line`: it is
the encoded length of some character-level prefix. -/
def isCharBoundary (line : String) (o : Nat) : Prop :=
  ∃ k, o = byteLen ⟨line.data.take k⟩

theorem isCharBoundary_of_eq_append {line a b : String} (h : line = a ++ b) :
    isCharBoundary line (byteLen a) := by
  refine ⟨a.data.length, ?_⟩
  subst h
  simp only [String.data_append, List.take_left]

/-- C6: every highlight span the painter emits has byte offsets on
whole-character boundaries of the painted line with
`begin ≤ end ≤ byteLen line`; and the spans are exactly the
extension-specific span over the icon region followed by the
resolved-highlight span over the name region immediately after it. -/
theorem claim_C6 (settings : Settings) (index selection : List String) (qf : QuickFix)
    (vc : VCStatus) (current : Option String) (node : Node) (depth : Nat) (r : Render)
    (h : paint settings index selection qf vc current node depth = some r) :
    (∀ hl ∈ r.highlights,
      isCharBoundary r.line hl.begin_ ∧ isCharBoundary r.line hl.end_
        ∧ hl.begin_ ≤ hl.end_ ∧ hl.end_ ≤ byteLen r.line)
    ∧ r.line = gen_decor_pre settings selection current node depth
        ++ gen_icon settings index node ++ gen_name settings node
        ++ gen_decor_post settings node
    ∧ r.highlights =
        (match settings.view.highlights.exts.lookup (node.ext.getD "") with
         | some group =>
           [{ group := group.name,
              begin_ := byteLen (gen_decor_pre settings selection current node depth),
              end_ := byteLen (gen_decor_pre settings selection current node depth)
                + byteLen (gen_icon settings index node) }]
         | none => [])
        ++ (match search_hl settings node with
            | some group =>
              [{ group := group.name,
                 begin_ := byteLen (gen_decor_pre settings selection current node depth)
                   + byteLen (gen_icon settings index node),
                 end_ := byteLen (gen_decor_pre settings selection current node depth)
                   + byteLen (gen_icon settings index node)
                   + byteLen (gen_name settings node) }]
            | none => []) := by
  simp only [paint] at h
  cases hb : gen_badges settings qf vc node.path with
  | none => rw [hb] at h; cases h
  | some badges =>
    rw [hb] at h
    simp only [Option.some.injEq] at h
    subst h
    set pre := gen_decor_pre settings selection current node depth with hpre
    set icon := gen_icon settings index node with hicon
    set nm := gen_name settings node with hnm
    set post := gen_decor_post settings node with hpost
    have hA : pre ++ icon ++ nm ++ post = pre ++ (icon ++ (nm ++ post)) := by
      simp [String.append_assoc]
    have hB : pre ++ icon ++ nm ++ post = (pre ++ icon) ++ (nm ++ post) := by
      simp [String.append_assoc]
    have hC : pre ++ icon ++ nm ++ post = (pre ++ icon ++ nm) ++ post := rfl
    have hline : byteLen (pre ++ icon ++ nm ++ post)
        = byteLen pre + byteLen icon + byteLen nm + byteLen post := by
      simp [byteLen_append]
    refine ⟨?_, rfl, ?_⟩
    · intro hl hmem
      simp only [gen_highlights] at hmem
      have b1 : isCharBoundary (pre ++ icon ++ nm ++ post) (byteLen pre) :=
        isCharBoundary_of_eq_append hA
      have b2 : isCharBoundary (pre ++ icon ++ nm ++ post) (byteLen pre + byteLen icon) := by
        have := isCharBoundary_of_eq_append hB
        rwa [byteLen_append] at this
      have b3 : isCharBoundary (pre ++ icon ++ nm ++ post)
          (byteLen pre + byteLen icon + byteLen nm) := by
        have := isCharBoundary_of_eq_append hC
        rwa [byteLen_append, byteLen_append] at this
      rcases List.mem_append.mp hmem with h1 | h2
      · cases hx : settings.view.highlights.exts.lookup (node.ext.getD "") with
        | none => rw [hx] at h1; cases h1
        | some g =>
          rw [hx] at h1
          simp only [List.mem_singleton] at h1
          subst h1
          refine ⟨b1, b2, Nat.le_add_right _ _, ?_⟩
          show byteLen pre + byteLen icon ≤ byteLen (pre ++ icon ++ nm ++ post)
          rw [hline]
          omega
      · cases hx : search_hl settings node with
        | none => rw [hx] at h2; cases h2
        | some g =>
          rw [hx] at h2
          simp only [List.mem_singleton] at h2
          subst h2
          refine ⟨b2, b3, Nat.le_add_right _ _, ?_⟩
          show byteLen pre + byteLen icon + byteLen nm ≤ byteLen (pre ++ icon ++ nm ++ post)
          rw [hline]
          omega
    · simp only [gen_highlights]

/-- C6 witness: `claim_C6` applied to a concrete successful paint (the solo
node, whose resolved highlight is the `post` table's no-tag fallback
`Normal` over the name region at byte offsets 5-6). -/
theorem claim_C6_witness :
    isCharBoundary "   # s" 5 ∧ isCharBoundary "   # s" 6 :=
  have h := claim_C6 sampleSettings [] [] counterQF emptyVC none soloNode 0
    { line := "   # s", badges := [],
      highlights := [{ group := "Normal", begin_ := 5, end_ := 6 }] } rfl
  have h5 := h.1 { group := "Normal", begin_ := 5, end_ := 6 } (by decide)
  ⟨h5.1, h5.2.1⟩

/-- The full filtered-and-sorted pre-order of a subtree: what the walk
produces below a node once the clear flag is set. -/
def preFull (sx : String → String) (settings : Settings) (vc : VCStatus)
    (show_hidden : Bool) (node : Node) : List Node :=
  node :: ((sortedChildren sx settings vc show_hidden node).attach.map
    (fun c => preFull sx settings vc show_hidden c.1)).flatten
termination_by sizeOf node
decreasing_by
  exact sizeOf_lt_of_mem_sortedChildren c.2

/-- The equation of `preFull` without `attach`. -/
theorem preFull_eq (sx : String → String) (settings : Settings) (vc : VCStatus)
    (show_hidden : Bool) (node : Node) :
    preFull sx settings vc show_hidden node =
      node :: ((sortedChildren sx settings vc show_hidden node).map
        (preFull sx settings vc show_hidden)).flatten := by
  rw [preFull]
  rw [List.attach_map_val (sortedChildren sx settings vc show_hidden node)
    (fun c => preFull sx settings vc show_hidden c)]

/-- Once the clear flag is set, the walk keeps the node and, recursively,
every filtered descendant. -/
theorem flat_true_eq_preFull (sx : String → String) (settings : Settings)
    (filter_pattern : Option FilterPattern) (vc : VCStatus) (show_hidden : Bool)
    (root_path : String) (node : Node) :
    flat sx settings filter_pattern vc show_hidden root_path node true =
      preFull sx settings vc show_hidden node := by
  rw [flat_eq, preFull_eq]
  have hclear : clearFlag filter_pattern true node = true := by simp [clearFlag]
  rw [hclear]
  have hmap : (sortedChildren sx settings vc show_hidden node).map
      (fun c => flat sx settings filter_pattern vc show_hidden root_path c true) =
      (sortedChildren sx settings vc show_hidden node).map
        (preFull sx settings vc show_hidden) := by
    apply List.map_congr_left
    intro c hc
    exact flat_true_eq_preFull sx settings filter_pattern vc show_hidden root_path c
  rw [hmap]
  simp
termination_by sizeOf node
decreasing_by
  exact sizeOf_lt_of_mem_sortedChildren hc

/-- C1: the clear flag is set iff an ancestor set it, no filter pattern is
active, or the node's name matches the pattern's glob; a node (with its
recursed subtree) contributes its own entry iff it is clear, or at least one
filtered-and-recursed child subtree is non-empty, or its path is the root's
(which for the actual render call means: it is the root); once set, the flag
propagates to the whole filtered subtree, all of which is included; and the
node sequence of a successful `walk` is exactly this `flat` recursion. -/
theorem claim_C1 (sx : String → String) (settings : Settings)
    (filter_pattern : Option FilterPattern) (vc : VCStatus) (show_hidden : Bool)
    (root_path : String) (node : Node) (cleared : Bool) :
    (clearFlag filter_pattern cleared node = true ↔
      (cleared = true ∨ filter_pattern = none
        ∨ ∃ fp, filter_pattern = some fp ∧ fnmatch node.name fp.pattern = true))
    ∧ (node ∈ flat sx settings filter_pattern vc show_hidden root_path node cleared ↔
        (clearFlag filter_pattern cleared node = true
          ∨ ((sortedChildren sx settings vc show_hidden node).map
              (fun c => flat sx settings filter_pattern vc show_hidden root_path c
                (clearFlag filter_pattern cleared node))).flatten ≠ []
          ∨ node.path = root_path))
    ∧ (flat sx settings filter_pattern vc show_hidden root_path node true =
        preFull sx settings vc show_hidden node)
    ∧ (∀ (index selection : List String) (qf : QuickFix) (current : Option String)
        (depth : Nat) (pairs : List (Node × Render)),
        walk sx settings index selection filter_pattern qf vc show_hidden current
          root_path node depth cleared = some pairs →
        pairs.map Prod.fst =
          flat sx settings filter_pattern vc show_hidden root_path node cleared) := by
  refine ⟨?_, ?_, ?_, ?_⟩
  · cases filter_pattern with
    | none => simp [clearFlag]
    | some fp =>
      simp only [clearFlag, Bool.or_eq_true]
      constructor
      · rintro (hc | hm)
        · exact Or.inl hc
        · exact Or.inr (Or.inr ⟨fp, rfl, hm⟩)
      · rintro (hc | hnone | ⟨fp', hfp', hm⟩)
        · exact Or.inl hc
        · cases hnone
        · cases hfp'
          exact Or.inr hm
  · constructor
    · intro hmem
      rw [flat_eq] at hmem
      rcases List.mem_append.mp hmem with hself | hchild
      · by_cases hcond : (clearFlag filter_pattern cleared node
            || !((sortedChildren sx settings vc show_hidden node).map
                (fun c => flat sx settings filter_pattern vc show_hidden root_path c
                  (clearFlag filter_pattern cleared node))).flatten.isEmpty
            || node.path == root_path) = true
        · simp only [Bool.or_eq_true, Bool.not_eq_true', List.isEmpty_eq_false,
            beq_iff_eq] at hcond
          rcases hcond with (hc | hne) | hr
          · exact Or.inl hc
          · exact Or.inr (Or.inl hne)
          · exact Or.inr (Or.inr hr)
        · rw [if_neg hcond] at hself
          cases hself
      · exact Or.inr (Or.inl (by
          intro hnil
          rw [hnil] at hchild
          cases hchild))
    · intro hcond
      rw [flat_eq]
      apply List.mem_append.mpr
      left
      have : (clearFlag filter_pattern cleared node
          || !((sortedChildren sx settings vc show_hidden node).map
              (fun c => flat sx settings filter_pattern vc show_hidden root_path c
                (clearFlag filter_pattern cleared node))).flatten.isEmpty
          || node.path == root_path) = true := by
        simp only [Bool.or_eq_true, Bool.not_eq_true', List.isEmpty_eq_false, beq_iff_eq]
        rcases hcond with hc | hne | hr
        · exact Or.inl (Or.inl hc)
        · exact Or.inl (Or.inr hne)
        · exact Or.inr hr
      rw [if_pos this]
      simp
  · exact flat_true_eq_preFull sx settings filter_pattern vc show_hidden root_path node
  · intro index selection qf current depth pairs h
    exact walk_fst sx settings index selection filter_pattern qf vc show_hidden current
      root_path node depth cleared pairs h

/-- C1 witness: the root-path disjunct applied at concrete inputs (the solo
node survives a filter that matches nothing because it is the root). -/
theorem claim_C1_witness :
    soloNode ∈ flat (fun s => s) sampleSettings (some ⟨"*.zzz"⟩) emptyVC false "/s"
      soloNode false :=
  ((claim_C1 (fun s => s) sampleSettings (some ⟨"*.zzz"⟩) emptyVC false "/s"
    soloNode false).2.1).mpr (Or.inr (Or.inr rfl))

theorem compLe_trans (sx : String → String) (sortby : List Sortby) (a b c : Node)
    (hab : compLe sx sortby a b = true) (hbc : compLe sx sortby b c = true) :
    compLe sx sortby a c = true := by
  simp only [compLe, decide_eq_true_eq] at *
  exact le_trans hab hbc

theorem compLe_total (sx : String → String) (sortby : List Sortby) (a b : Node) :
    (compLe sx sortby a b || compLe sx sortby b a) = true := by
  simp only [compLe, Bool.or_eq_true, decide_eq_true_eq]
  exact le_total _ _

/-- C2: the output is the depth-first pre-order — the node's own entry (when
kept) comes first and each recursed child subtree occupies one contiguous
block of the concatenation; the sibling blocks are ordered by the comparator
(pairwise, equivalently positionally, the projection tuples are
non-decreasing), over exactly the surviving children (a permutation), and the
sort is stable: siblings with equal projection tuples keep their original
relative order. -/
theorem claim_C2 (sx : String → String) (settings : Settings)
    (filter_pattern : Option FilterPattern) (vc : VCStatus) (show_hidden : Bool)
    (root_path : String) (node : Node) (cleared : Bool) :
    (flat sx settings filter_pattern vc show_hidden root_path node cleared =
      (if clearFlag filter_pattern cleared node
          || !((sortedChildren sx settings vc show_hidden node).map
              (fun c => flat sx settings filter_pattern vc show_hidden root_path c
                (clearFlag filter_pattern cleared node))).flatten.isEmpty
          || node.path == root_path
        then [node] else [])
        ++ ((sortedChildren sx settings vc show_hidden node).map
            (fun c => flat sx settings filter_pattern vc show_hidden root_path c
              (clearFlag filter_pattern cleared node))).flatten)
    ∧ (clearFlag filter_pattern cleared node = true ∨ node.path = root_path →
        flat sx settings filter_pattern vc show_hidden root_path node cleared =
          node :: ((sortedChildren sx settings vc show_hidden node).map
            (fun c => flat sx settings filter_pattern vc show_hidden root_path c
              (clearFlag filter_pattern cleared node))).flatten)
    ∧ (sortedChildren sx settings vc show_hidden node).Pairwise
        (fun a b => compLe sx settings.view.sort_by a b = true)
    ∧ (sortedChildren sx settings vc show_hidden node).Perm
        (keptChildren settings vc show_hidden node)
    ∧ (∀ i j : Fin (sortedChildren sx settings vc show_hidden node).length, i < j →
        genComp sx settings.view.sort_by ((sortedChildren sx settings vc show_hidden node).get i)
          ≤ genComp sx settings.view.sort_by ((sortedChildren sx settings vc show_hidden node).get j))
    ∧ (∀ a b : Node, genComp sx settings.view.sort_by a = genComp sx settings.view.sort_by b →
        List.Sublist [a, b] (keptChildren settings vc show_hidden node) →
        List.Sublist [a, b] (sortedChildren sx settings vc show_hidden node)) := by
  have hpw : (sortedChildren sx settings vc show_hidden node).Pairwise
      (fun a b => compLe sx settings.view.sort_by a b = true) := by
    exact List.sorted_mergeSort
      (compLe_trans sx settings.view.sort_by) (compLe_total sx settings.view.sort_by)
      (keptChildren settings vc show_hidden node)
  refine ⟨flat_eq sx settings filter_pattern vc show_hidden root_path node cleared,
    ?_, hpw, ?_, ?_, ?_⟩
  · intro hcond
    rw [flat_eq]
    have : (clearFlag filter_pattern cleared node
        || !((sortedChildren sx settings vc show_hidden node).map
            (fun c => flat sx settings filter_pattern vc show_hidden root_path c
              (clearFlag filter_pattern cleared node))).flatten.isEmpty
        || node.path == root_path) = true := by
      rcases hcond with hc | hr
      · simp [hc]
      · simp [hr]
    rw [if_pos this]
    rfl
  · exact List.mergeSort_perm (keptChildren settings vc show_hidden node) _
  · intro i j hij
    have := List.pairwise_iff_get.mp hpw i j hij
    simpa [compLe, decide_eq_true_eq] using this
  · intro a b hkey hsub
    exact List.pair_sublist_mergeSort
      (compLe_trans sx settings.view.sort_by) (compLe_total sx settings.view.sort_by)
      (by simp [compLe, hkey]) hsub

/-- C2 witness: the kept-head conjunct applied at the root of the concrete
solo-node tree, evaluating its (empty) child blocks. -/
theorem claim_C2_witness :
    flat (fun s => s) sampleSettings (some ⟨"*.zzz"⟩) emptyVC false "/s" soloNode false
      = [soloNode] := by
  have h := (claim_C2 (fun s => s) sampleSettings (some ⟨"*.zzz"⟩) emptyVC false "/s"
    soloNode false).2.1 (Or.inr rfl)
  rw [h]
  simp [sortedChildren, keptChildren, soloNode, Node.children]

/-- C5 witness: `claim_C5` at concrete inputs — on the solo node all earlier
tiers are empty and the resolver falls through to the `post` table's no-tag
entry. -/
theorem claim_C5_witness :
    search_hl sampleSettings soloNode = some ⟨"Normal"⟩ :=
  ((claim_C5 sampleSettings soloNode).1 ⟨"Normal"⟩).mpr
    (Or.inr ⟨rfl, Or.inr ⟨rfl, Or.inr ⟨rfl, Or.inr ⟨rfl, rfl⟩⟩⟩⟩)

/-! ### C7: the reverse index round-trips with the flattened sequence -/

/-- All nodes reachable through `children`, in raw pre-order. -/
def treeNodes (node : Node) : List Node :=
  node :: (node.children.attach.map (fun c => treeNodes c.1)).flatten
termination_by sizeOf node
decreasing_by
  have h1 := List.sizeOf_lt_of_mem c.2
  have h2 := sizeOf_children_lt node
  omega

/-- The equation of `treeNodes` without `attach`. -/
theorem treeNodes_eq (node : Node) :
    treeNodes node = node :: (node.children.map treeNodes).flatten := by
  rw [treeNodes]
  rw [List.attach_map_val node.children (fun c => treeNodes c)]

theorem subperm_append {α : Type} {l₁ l₂ r₁ r₂ : List α}
    (h1 : List.Subperm l₁ l₂) (h2 : List.Subperm r₁ r₂) :
    List.Subperm (l₁ ++ r₁) (l₂ ++ r₂) := by
  obtain ⟨u, hu1, hu2⟩ := h1
  obtain ⟨v, hv1, hv2⟩ := h2
  exact ⟨u ++ v, hu1.append hv1, hu2.append hv2⟩

theorem sublist_flatten_map {α β : Type} {l₁ l₂ : List α} (f : α → List β)
    (h : List.Sublist l₁ l₂) :
    List.Sublist (l₁.map f).flatten (l₂.map f).flatten := by
  induction h with
  | slnil => simp
  | cons a h ih =>
    simp only [List.map_cons, List.flatten_cons]
    exact ih.trans (List.sublist_append_right _ _)
  | cons₂ a h ih =>
    simp only [List.map_cons, List.flatten_cons]
    exact ih.append_left _

theorem subperm_flatten_of_pointwise {α β : Type} {f g : α → List β} :
    ∀ (l : List α), (∀ c ∈ l, List.Subperm (f c) (g c)) →
      List.Subperm ((l.map f).flatten) ((l.map g).flatten) := by
  intro l
  induction l with
  | nil =>
    intro _
    simp
  | cons a l ih =>
    intro h
    simp only [List.map_cons, List.flatten_cons]
    exact subperm_append (h a (by simp)) (ih (fun c hc => h c (by simp [hc])))

/-- Every walk output is, up to order, a selection without repetition from
the reachable nodes of the tree. -/
theorem flat_subperm (sx : String → String) (settings : Settings)
    (filter_pattern : Option FilterPattern) (vc : VCStatus) (show_hidden : Bool)
    (root_path : String) (node : Node) (cleared : Bool) :
    List.Subperm (flat sx settings filter_pattern vc show_hidden root_path node cleared)
      (treeNodes node) := by
  rw [flat_eq, treeNodes_eq]
  have hpoint : ∀ c ∈ node.children,
      List.Subperm (flat sx settings filter_pattern vc show_hidden root_path c
        (clearFlag filter_pattern cleared node)) (treeNodes c) := by
    intro c hc
    exact flat_subperm sx settings filter_pattern vc show_hidden root_path c
      (clearFlag filter_pattern cleared node)
  have h1 : List.Perm
      (((sortedChildren sx settings vc show_hidden node).map
        (fun c => flat sx settings filter_pattern vc show_hidden root_path c
          (clearFlag filter_pattern cleared node))).flatten)
      (((keptChildren settings vc show_hidden node).map
        (fun c => flat sx settings filter_pattern vc show_hidden root_path c
          (clearFlag filter_pattern cleared node))).flatten) :=
    List.Perm.flatten (List.Perm.map _
      (List.mergeSort_perm (keptChildren settings vc show_hidden node) _))
  have h2 : List.Sublist
      (((keptChildren settings vc show_hidden node).map
        (fun c => flat sx settings filter_pattern vc show_hidden root_path c
          (clearFlag filter_pattern cleared node))).flatten)
      ((node.children.map
        (fun c => flat sx settings filter_pattern vc show_hidden root_path c
          (clearFlag filter_pattern cleared node))).flatten) :=
    sublist_flatten_map _ (List.filter_sublist _)
  have h3 : List.Subperm
      ((node.children.map
        (fun c => flat sx settings filter_pattern vc show_hidden root_path c
          (clearFlag filter_pattern cleared node))).flatten)
      ((node.children.map treeNodes).flatten) :=
    subperm_flatten_of_pointwise node.children hpoint
  have hchain : List.Subperm
      (((sortedChildren sx settings vc show_hidden node).map
        (fun c => flat sx settings filter_pattern vc show_hidden root_path c
          (clearFlag filter_pattern cleared node))).flatten)
      ((node.children.map treeNodes).flatten) :=
    (h1.subperm.trans h2.subperm).trans h3
  by_cases hcond : (clearFlag filter_pattern cleared node
      || !((sortedChildren sx settings vc show_hidden node).map
          (fun c => flat sx settings filter_pattern vc show_hidden root_path c
            (clearFlag filter_pattern cleared node))).flatten.isEmpty
      || node.path == root_path) = true
  · rw [if_pos hcond]
    have : node :: (node.children.map treeNodes).flatten =
        [node] ++ (node.children.map treeNodes).flatten := rfl
    rw [this]
    exact subperm_append (List.Subperm.refl [node]) hchain
  · rw [if_neg hcond]
    simp only [List.nil_append]
    exact hchain.cons_right node
termination_by sizeOf node
decreasing_by
  have h1 := List.sizeOf_lt_of_mem hc
  have h2 := sizeOf_children_lt node
  omega

/-- `lookup` distributes over append. -/
theorem lookup_append {β : Type} (l₁ l₂ : List (String × β)) (k : String) :
    (l₁ ++ l₂).lookup k =
      (match l₁.lookup k with
       | some v => some v
       | none => l₂.lookup k) := by
  induction l₁ with
  | nil => simp [List.lookup]
  | cons p l₁ ih =>
    cases hb : (k == p.1) <;> simp [List.lookup, hb, ih]

theorem lookup_eq_none_of_not_mem {β : Type} {l : List (String × β)} {k : String}
    (h : k ∉ l.map Prod.fst) : l.lookup k = none := by
  induction l with
  | nil => rfl
  | cons p l ih =>
    simp only [List.map_cons, List.mem_cons, not_or] at h
    have hb : (k == p.1) = false := by
      simpa using h.1
    simp [List.lookup, hb, ih h.2]

/-- With pairwise-distinct keys, looking up in the reversed list (last write
wins) agrees with looking up in the list itself. -/
theorem lookup_reverse_of_nodup {β : Type} {l : List (String × β)}
    (h : (l.map Prod.fst).Nodup) (k : String) : l.reverse.lookup k = l.lookup k := by
  induction l with
  | nil => rfl
  | cons p l ih =>
    simp only [List.map_cons, List.nodup_cons] at h
    rw [List.reverse_cons, lookup_append]
    cases hb : (k == p.1) with
    | false =>
      rw [ih h.2]
      cases hl : l.lookup k <;> simp [List.lookup, hb, hl]
    | true =>
      have hk : k = p.1 := by simpa using hb
      subst hk
      rw [ih h.2, lookup_eq_none_of_not_mem h.1]
      simp [List.lookup]

/-- Looking up the `i`-th node's path in the enumerated path index yields
`n + i`, provided the paths are pairwise distinct. -/
theorem lookup_enumFrom_paths :
    ∀ (l : List Node) (n : Nat), ((l.map Node.path).Nodup) →
      ∀ (i : Nat) (hi : i < l.length),
        ((l.enumFrom n).map (fun p => (p.2.path, p.1))).lookup (l.get ⟨i, hi⟩).path
          = some (n + i) := by
  intro l
  induction l with
  | nil =>
    intro n _ i hi
    cases hi
  | cons x xs ih =>
    intro n hnd i hi
    simp only [List.map_cons, List.nodup_cons] at hnd
    cases i with
    | zero =>
      simp [List.enumFrom, List.lookup]
    | succ i =>
      have hne : ((xs.get ⟨i, by simpa using hi⟩).path == x.path) = false := by
        have hmem : (xs.get ⟨i, by simpa using hi⟩).path ∈ xs.map Node.path :=
          List.mem_map.mpr ⟨_, List.get_mem xs i (by simpa using hi), rfl⟩
        have : (xs.get ⟨i, by simpa using hi⟩).path ≠ x.path := by
          intro he
          exact hnd.1 (he ▸ hmem)
        simpa using this
      have := ih (n + 1) hnd.2 i (by simpa using hi)
      simp only [List.enumFrom, List.map_cons, List.lookup, List.get, hne]
      rw [this]
      congr 1
      omega

/-- C7: when path values are unique across all reachable nodes, the reverse
index round-trips: for every index `i` of the returned `lookup` sequence,
`paths_lookup[lookup[i].path] = i`. -/
theorem claim_C7 (sx : String → String) (node : Node) (settings : Settings)
    (index selection : List String) (filter_pattern : Option FilterPattern)
    (qf : QuickFix) (vc : VCStatus) (show_hidden : Bool) (current : Option String)
    (d : Derived)
    (hnodup : ((treeNodes node).map Node.path).Nodup)
    (h : render sx node settings index selection filter_pattern qf vc show_hidden current
      = some d) :
    ∀ (i : Nat) (hi : i < d.lookup.length),
      dictGet d.paths_lookup ((d.lookup.get ⟨i, hi⟩).path) = some i := by
  simp only [render] at h
  cases hw : walk sx settings index selection filter_pattern qf vc show_hidden current
      node.path node 0 false with
  | none => rw [hw] at h; cases h
  | some pairs =>
    rw [hw] at h
    simp only [Option.some.injEq] at h
    subst h
    have hfst := walk_fst sx settings index selection filter_pattern qf vc show_hidden
      current node.path node 0 false pairs hw
    have hsub : List.Subperm ((pairs.map Prod.fst).map Node.path)
        ((treeNodes node).map Node.path) := by
      rw [hfst]
      obtain ⟨u, hu1, hu2⟩ := flat_subperm sx settings filter_pattern vc show_hidden
        node.path node false
      exact ⟨u.map Node.path, hu1.map _, hu2.map _⟩
    have hnd : ((pairs.map Prod.fst).map Node.path).Nodup := by
      obtain ⟨u, hu1, hu2⟩ := hsub
      exact (hnodup.sublist hu2).perm hu1
    intro i hi
    have hkeys : (((pairs.map Prod.fst).enum.map
        (fun p => (p.2.path, p.1))).map Prod.fst) = (pairs.map Prod.fst).map Node.path := by
      rw [List.map_map]
      have : (Prod.fst ∘ fun p : Nat × Node => (p.2.path, p.1))
          = Node.path ∘ Prod.snd := rfl
      rw [this, ← List.map_map, List.enum_map_snd]
    show dictGet ((pairs.map Prod.fst).enum.map (fun p => (p.2.path, p.1)))
        (((pairs.map Prod.fst).get ⟨i, hi⟩).path) = some i
    rw [dictGet, lookup_reverse_of_nodup (hkeys ▸ hnd)]
    have := lookup_enumFrom_paths (pairs.map Prod.fst) 0 hnd i hi
    simpa using this

/-- C7 witness: `claim_C7` at the concrete solo-node render, index 0. -/
theorem claim_C7_witness :
    dictGet [("/s", 0)] "/s" = some 0 := by
  have h := claim_C7 (fun s => s) soloNode sampleSettings [] [] (some ⟨"*.zzz"⟩)
    counterQF emptyVC false none _
    (by rw [treeNodes_eq]; simp [soloNode, Node.children, Node.path])
    render_solo_eq 0 (by decide)
  simpa [soloNode, Node.path] using h

/-! ### C9: encoding behaviour at the level of Python strings

A Lean `String` can only hold Unicode scalar values, but a Python `str` may
contain lone surrogates (U+D800-U+DFFF) — exactly what `os.listdir` produces
via `surrogateescape` for undecodable filesystem names.  The encoding steps
of `render.py` (the `.encode()` calls of `gen_highlights`, lines 140-154,
and the linesep escape of `gen_name`, line 119) are therefore re-modelled
here over raw code-point sequences to settle what happens on such names. -/

/-- A Python `str`: a sequence of code points, possibly lone surrogates. -/
def PyStr := List Nat

/-- Whether a code point is a (lone) surrogate. -/
def isSurrogate (cp : Nat) : Bool := decide (0xD800 ≤ cp) && decide (cp ≤ 0xDFFF)

/-- UTF-8 encoding of one non-surrogate code point. -/
def utf8Bytes (cp : Nat) : List Nat :=
  if cp < 0x80 then [cp]
  else if cp < 0x800 then [0xC0 + cp / 0x40, 0x80 + cp % 0x40]
  else if cp < 0x10000 then
    [0xE0 + cp / 0x1000, 0x80 + cp / 0x40 % 0x40, 0x80 + cp % 0x40]
  else
    [0xF0 + cp / 0x40000, 0x80 + cp / 0x1000 % 0x40, 0x80 + cp / 0x40 % 0x40,
      0x80 + cp % 0x40]

/-- `s.encode()` with the default strict error handler: raises
`UnicodeEncodeError` (embedded as `none`) iff a lone surrogate is present. -/
def pyEncode (s : PyStr) : Option (List Nat) :=
  if s.any isSurrogate then none else some ((s.map utf8Bytes).flatten)

/-- `len(s.encode())`, as `gen_highlights` measures every region. -/
def pyByteLen (s : PyStr) : Option Nat := (pyEncode s).map List.length

/-- `gen_highlights(node, pre, icon, name)` (lines 140-154) at Python-`str`
level, parameterised by the two already-resolved groups: `pre` and `icon`
are encoded unconditionally (lines 143-144); `name` is encoded only when a
resolved group exists (line 152).  A raised `UnicodeEncodeError` (`none`)
propagates out of `show` and aborts the whole render call. -/
def pyGenHighlights (extGroup resolvedGroup : Option String) (pre icon name : PyStr) :
    Option (List (String × Nat × Nat)) :=
  match pyByteLen pre with
  | none => none
  | some b0 =>
    match pyByteLen icon with
    | none => none
    | some bi =>
      let first := match extGroup with
        | some g => [(g, b0, b0 + bi)]
        | none => []
      match resolvedGroup with
      | none => some first
      | some g =>
        match pyByteLen name with
        | none => none
        | some bn => some (first ++ [(g, b0 + bi, b0 + bi + bn)])

/-- `gen_name`'s only transformation (line 119) at Python-`str` level: each
linesep (U+000A) becomes the literal backslash-n escape; nothing else is
substituted — surrogates pass through untouched. -/
def pyGenNameEscape (name : PyStr) : PyStr :=
  (name.map (fun cp => if cp = 10 then [92, 110] else [cp])).flatten

/-- C9, evaluated at the failing input: for a name consisting of the lone
surrogate U+D800, the render performs no replacement-safe substitution (the
linesep escape leaves the surrogate in place), and the byte measurement of
the name region raises `UnicodeEncodeError` (`none`), aborting the whole
render — whereas a well-formed name measures fine.  This contradicts the
claim (and spec section 7b), which requires the render to substitute a
replacement-safe representation and never abort; the spec's stated
error-handling design is the intent and the code does not implement it. -/
theorem claim_C9 :
    pyGenNameEscape [0xD800] = [0xD800]
      ∧ pyGenHighlights none (some "NormalHl") [] [] (pyGenNameEscape [0xD800]) = none
      ∧ pyGenHighlights none (some "NormalHl") [] [] [104, 105]
          = some [("NormalHl", 0, 2)]
      ∧ pyEncode [0xD800] = none := by
  constructor
  · rfl
  · constructor
    · rfl
    · constructor <;> rfl

end Chadtree
